import Mathlib

/-!
Verification of the example-manifest generation pipeline of `pkg/examples/example.go`
(upjet).  The Go code walks arbitrarily nested parameter trees (`map[string]any`),
elides status/omitted fields, rewrites sensitive and cross-resource-reference fields,
paves manifests and stores them.  We embed the code shallowly: `map[string]any`
becomes an association list over an inductive `Value` type, Go map mutation becomes
`assocDelete`/`assocInsert`, and fallible operations return `Except String`.
External collaborator packages (`config`, `registry/reference`, `types`, the regex
engine, the resolver and the JSON decoder) are not part of the source tree; they are
modelled from the spec and marked as such, or passed in as explicit parameters.
-/

namespace Upjet

/-- A dynamic value, embedding Go's `any` as decoded from example manifests:
scalars (string / number / bool / nil), ordered sequences (`[]any`) and keyed
trees (`map[string]any`, embedded as an association list). -/
inductive Value where
  | str : String → Value
  | num : Int → Value
  | bool : Bool → Value
  | null : Value
  | arr : List Value → Value
  | obj : List (String × Value) → Value

mutual

/-- Structural decidable equality for `Value` (the deriving handler does not
support nested inductives). -/
def Value.decEq : (a b : Value) → Decidable (a = b)
  | .str a, .str b =>
    match String.decEq a b with
    | .isTrue h => .isTrue (by rw [h])
    | .isFalse h => .isFalse (by intro hh; cases hh; exact h rfl)
  | .num a, .num b =>
    match Int.decEq a b with
    | .isTrue h => .isTrue (by rw [h])
    | .isFalse h => .isFalse (by intro hh; cases hh; exact h rfl)
  | .bool a, .bool b =>
    match Bool.decEq a b with
    | .isTrue h => .isTrue (by rw [h])
    | .isFalse h => .isFalse (by intro hh; cases hh; exact h rfl)
  | .null, .null => .isTrue rfl
  | .arr a, .arr b =>
    match Value.decEqList a b with
    | .isTrue h => .isTrue (by rw [h])
    | .isFalse h => .isFalse (by intro hh; cases hh; exact h rfl)
  | .obj a, .obj b =>
    match Value.decEqObj a b with
    | .isTrue h => .isTrue (by rw [h])
    | .isFalse h => .isFalse (by intro hh; cases hh; exact h rfl)
  | .str _, .num _ => .isFalse nofun
  | .str _, .bool _ => .isFalse nofun
  | .str _, .null => .isFalse nofun
  | .str _, .arr _ => .isFalse nofun
  | .str _, .obj _ => .isFalse nofun
  | .num _, .str _ => .isFalse nofun
  | .num _, .bool _ => .isFalse nofun
  | .num _, .null => .isFalse nofun
  | .num _, .arr _ => .isFalse nofun
  | .num _, .obj _ => .isFalse nofun
  | .bool _, .str _ => .isFalse nofun
  | .bool _, .num _ => .isFalse nofun
  | .bool _, .null => .isFalse nofun
  | .bool _, .arr _ => .isFalse nofun
  | .bool _, .obj _ => .isFalse nofun
  | .null, .str _ => .isFalse nofun
  | .null, .num _ => .isFalse nofun
  | .null, .bool _ => .isFalse nofun
  | .null, .arr _ => .isFalse nofun
  | .null, .obj _ => .isFalse nofun
  | .arr _, .str _ => .isFalse nofun
  | .arr _, .num _ => .isFalse nofun
  | .arr _, .bool _ => .isFalse nofun
  | .arr _, .null => .isFalse nofun
  | .arr _, .obj _ => .isFalse nofun
  | .obj _, .str _ => .isFalse nofun
  | .obj _, .num _ => .isFalse nofun
  | .obj _, .bool _ => .isFalse nofun
  | .obj _, .null => .isFalse nofun
  | .obj _, .arr _ => .isFalse nofun

/-- Decidable equality for lists of values. -/
def Value.decEqList : (a b : List Value) → Decidable (a = b)
  | [], [] => .isTrue rfl
  | [], _ :: _ => .isFalse nofun
  | _ :: _, [] => .isFalse nofun
  | a :: as, b :: bs =>
    match Value.decEq a b, Value.decEqList as bs with
    | .isTrue h1, .isTrue h2 => .isTrue (by rw [h1, h2])
    | .isFalse h1, _ => .isFalse (by intro hh; cases hh; exact h1 rfl)
    | _, .isFalse h2 => .isFalse (by intro hh; cases hh; exact h2 rfl)

/-- Decidable equality for keyed entry lists. -/
def Value.decEqObj : (a b : List (String × Value)) → Decidable (a = b)
  | [], [] => .isTrue rfl
  | [], _ :: _ => .isFalse nofun
  | _ :: _, [] => .isFalse nofun
  | (k, v) :: as, (k', v') :: bs =>
    match String.decEq k k', Value.decEq v v', Value.decEqObj as bs with
    | .isTrue h1, .isTrue h2, .isTrue h3 => .isTrue (by rw [h1, h2, h3])
    | .isFalse h1, _, _ => .isFalse (by intro hh; cases hh; exact h1 rfl)
    | _, .isFalse h2, _ => .isFalse (by intro hh; cases hh; exact h2 rfl)
    | _, _, .isFalse h3 => .isFalse (by intro hh; cases hh; exact h3 rfl)

end

instance : DecidableEq Value := Value.decEq

/-- Whether a value is a Go string (the `v.(string)` type test). -/
def Value.isStr : Value → Bool
  | .str _ => true
  | _ => false

/-- Whether a value is a Go slice (the `v.([]any)` type test). -/
def Value.isArr : Value → Bool
  | .arr _ => true
  | _ => false

/-- Length of a sequence value, if it is one. -/
def arrLength : Value → Option Nat
  | .arr es => some es.length
  | _ => none

/-- Go map read `m[k]`: the value bound to `k`, if present. -/
def assocGet {α : Type} : List (String × α) → String → Option α
  | [], _ => none
  | (k', v) :: rest, k => if k' = k then some v else assocGet rest k

/-- Go map `delete(m, k)`. -/
def assocDelete {α : Type} : List (String × α) → String → List (String × α)
  | [], _ => []
  | (k', v) :: rest, k => if k' = k then assocDelete rest k else (k', v) :: assocDelete rest k

/-- Go map write `m[k] = v` (replaces any existing binding). -/
def assocInsert {α : Type} (m : List (String × α)) (k : String) (v : α) : List (String × α) :=
  assocDelete m k ++ [(k, v)]

/-- Whether key `k` is present in the map. -/
def containsKey {α : Type} (m : List (String × α)) (k : String) : Bool :=
  (assocGet m k).isSome

/-- `labelExampleName` from the source. -/
def labelExampleName : String := "testing.upbound.io/example-name"

/-- `defaultExampleName` from the source. -/
def defaultExampleName : String := "example"

/-- `defaultNamespace` from the source. -/
def defaultNamespace : String := "upbound-system"

/-- Modelled from the spec: the cardinality classification that the Terraform
schema (`helper/schema.Schema.Type`) attaches to a field; only the list/set
distinction is consumed by this pipeline. -/
inductive SchemaType where
  | typeString | typeInt | typeBool | typeFloat | typeMap | typeList | typeSet
deriving DecidableEq

/-- Whether the cardinality is list or set (`sch.Type == schema.TypeList ||
sch.Type == schema.TypeSet` in the source). -/
def SchemaType.isListOrSet : SchemaType → Bool
  | .typeList => true
  | .typeSet => true
  | _ => false

/-- Modelled from the spec: the schema lookup result
`GetFieldSchema(resourceSchema, hierarchicalPath) -> {isObserved, sensitive,
cardinality} | absent` (section 6).  `isObserved` models `tjtypes.IsObservation`,
`sensitive` models `Schema.Sensitive`. -/
structure FieldSchema where
  isObserved : Bool
  sensitive : Bool
  typ : SchemaType
deriving DecidableEq

/-- Modelled from the spec: `config.Reference`, the declared cross-resource
reference metadata for a field path — the referenced type plus the target field
names for the rewritten reference/selector forms (section 3).  The Go code
compares against the zero struct `config.Reference{}` to decide whether a
reference is declared. -/
structure Reference where
  type : String
  refFieldName : String
  selectorFieldName : String
deriving DecidableEq

/-- The zero value `config.Reference{}`. -/
def Reference.empty : Reference := ⟨"", "", ""⟩

/-- Modelled from the spec: one declared example of a resource
(`registry.ResourceExample`): an example name, a parameter tree, and a map from
dependency identifier to that dependency's raw templated parameter blob. -/
structure ResourceExample where
  name : String
  params : List (String × Value)
  dependencies : List (String × String)

/-- Modelled from the spec: the scraped registry metadata of a resource
(`registry.Resource`), of which only the declared examples are consumed here. -/
structure MetaResource where
  examples : List ResourceExample

/-- Modelled from the spec: `config.Resource` as consumed by this pipeline —
kind and name, the omitted-fields list (`ExternalName.OmittedFields`), the
per-path cross-resource reference table (`References`, a Go map whose lookup
yields the zero `Reference` when absent), the schema lookup
(`config.GetSchema(r.TerraformResource, path)`), and the registry metadata. -/
structure Resource where
  name : String
  kind : String
  omittedFields : List String
  references : String → Reference
  schema : String → Option FieldSchema
  metaResource : Option MetaResource

/-- Whether the character list starts with the given pattern. -/
def strStartsWith : List Char → List Char → Bool
  | _, [] => true
  | [], _ :: _ => false
  | c :: cs, p :: ps => c == p && strStartsWith cs ps

/-- One-pass splitter over a character list: emit a segment at each leftmost,
non-overlapping occurrence of the separator; `skip` counts characters of an
already-matched separator still to be consumed, `acc` holds the current
segment reversed. -/
def splitOnGo (sep : List Char) : List Char → Nat → List Char → List (List Char)
  | [], _, acc => [acc.reverse]
  | _ :: cs, skip + 1, acc => splitOnGo sep cs skip acc
  | c :: cs, 0, acc =>
    if strStartsWith (c :: cs) sep then
      acc.reverse :: splitOnGo sep cs (sep.length - 1) []
    else splitOnGo sep cs 0 (c :: acc)

/-- Go's `strings.Split` (structural, so that concrete runs reduce inside the
kernel): split on every non-overlapping occurrence of a non-empty separator;
an empty separator yields the whole string. -/
def strSplitOn (s sep : String) : List String :=
  if sep = "" then [s] else (splitOnGo sep.data s.data 0 []).map String.mk

/-- Go's `strings.ToLower` (structural). -/
def strToLower (s : String) : String :=
  String.mk (s.data.map Char.toLower)

/-- Go's `strings.ReplaceAll` (structural): replace every non-overlapping
occurrence of a non-empty pattern. -/
def strReplace (s pat rep : String) : String :=
  if pat = "" then s else String.intercalate rep (strSplitOn s pat)

/-- `getHierarchicalName` from the source. -/
def getHierarchicalName (pfx n : String) : String :=
  if pfx = "" then n else pfx ++ "." ++ n

/-- `isStatus` from the source: a nil schema is not a status field; otherwise
the observation flag decides (`tjtypes.IsObservation`, modelled by
`FieldSchema.isObserved`). -/
def isStatus (r : Resource) (attr : String) : Bool :=
  match r.schema attr with
  | none => false
  | some s => s.isObserved

/-- Capitalize the first character of a word. -/
def capitalize (w : String) : String :=
  match w.data with
  | [] => w
  | c :: cs => String.mk (c.toUpper :: cs)

/-- Modelled from the spec: the case conversion of a snake_case field name to
its lowerCamel form (`name.NewFromSnake(n).LowerCamelComputed`). -/
def lowerCamel (s : String) : String :=
  match strSplitOn s "_" with
  | [] => ""
  | w :: ws => w ++ String.join (ws.map capitalize)

/-- Modelled from the spec: `name.ReferenceFieldName` — the derived
reference-array field name, honoring a configured override; pluralized when the
schema cardinality is list/set. -/
def referenceFieldName (fn : String) (plural : Bool) (override : String) : String :=
  if override = "" then (if plural then fn ++ "Refs" else fn ++ "Ref") else override

/-- Modelled from the spec: `name.SelectorFieldName` — the derived selector
field name, honoring a configured override. -/
def selectorFieldName (fn : String) (override : String) : String :=
  if override = "" then fn ++ "Selector" else override

/-- Modelled from the spec: the interpolation pattern (`reference.ReRef`, the
regular expression matching a Terraform interpolation over an inner dotted
expression).  A Go regex match of that shape captures, greedily, the non-empty
text between the first opening marker and the last closing brace. -/
def matchInterpolation (s : String) : Option String :=
  match strSplitOn s "$\x7b" with
  | [] => none
  | [_] => none
  | _ :: rest =>
    let tl := String.intercalate "$\x7b" rest
    match strSplitOn tl "\x7d" with
    | [] => none
    | [_] => none
    | segs =>
      let inner := String.intercalate "\x7d" segs.dropLast
      if inner = "" then none else some inner

/-- The file-reference pattern `reFile` of the source
(the regular expression matching a quoted argument of a call to the
Terraform builtin for reading a file); greedy capture as in Go. -/
def matchFileRef (s : String) : Option String :=
  match strSplitOn s "file(\"" with
  | [] => none
  | [_] => none
  | _ :: rest =>
    let tl := String.intercalate "file(\"" rest
    match strSplitOn tl "\")" with
    | [] => none
    | [_] => none
    | segs =>
      let inner := String.intercalate "\")" segs.dropLast
      if inner = "" then none else some inner

/-- The file-name component of `filepath.Split`. -/
def baseName (p : String) : String :=
  (strSplitOn p "/").getLastD p

/-- Modelled from the spec: `reference.MatchRefParts` — recognizes a scalar
whose text matches the reference pattern (an interpolation whose inner dotted
expression has at least three components: resource type, example name,
attribute) and resolves the example identity from the name component, words
joined by hyphens. -/
def matchRefParts (s : String) : Option String :=
  match matchInterpolation s with
  | none => none
  | some inner =>
    match strSplitOn inner "." with
    | _ :: nm :: _ :: _ => some (String.intercalate "-" (strSplitOn nm "_"))
    | _ => none

/-- Modelled from the spec: Go's `fmt.Sprintf` of a dynamic value with the
default verb; faithful on strings (the only case the heuristics rely on),
best-effort on the other shapes. -/
def valueToString : Value → String
  | .str s => s
  | .num n => toString n
  | .bool b => toString b
  | .null => "<nil>"
  | .arr _ => "[...]"
  | .obj _ => "map[...]"

/-- `getSecretRef` from the source: best-effort extraction of a (secret name,
secret key) pair from an example value, falling back to fixed defaults. -/
def getSecretRef (v : Value) : String × String :=
  let secretName := "example-secret"
  let secretKey := "example-key"
  match v with
  | .str s =>
    match matchInterpolation s with
    | none => (secretName, secretKey)
    | some g1 =>
      match matchFileRef g1 with
      | some f => (secretName, "attribute." ++ baseName f)
      | none =>
        let parts := strSplitOn g1 "."
        if parts.length < 3 then (secretName, secretKey)
        else ("example-" ++ String.intercalate "-" (strSplitOn (parts.headD "") "_").tail,
              "attribute." ++ String.intercalate "." (parts.drop 2))
  | _ => (secretName, secretKey)

/-- `getNameRefField` from the source: one `{name: ...}` object per element of
the original sequence, the name defaulting to the example sentinel and
overridden when the element's text matches the reference pattern.  (The Go
code's `v.([]any)` assertion is only ever exercised on sequences.) -/
def getNameRefField (v : Value) : Value :=
  match v with
  | .arr es =>
    .arr (es.map fun r =>
      .obj [("name", .str ((matchRefParts (valueToString r)).getD defaultExampleName))])
  | _ => .null

/-- `getSelectorField` from the source: a label selector matching on the
example-name label, defaulted and overridden on a reference-pattern match. -/
def getSelectorField (refVal : Value) : Value :=
  .obj [("matchLabels",
    .obj [(labelExampleName, .str ((matchRefParts (valueToString refVal)).getD defaultExampleName))])]

/-- `getRefField` from the source: wrap the secret-reference object in a
one-element sequence when the original value was a sequence. -/
def getRefField (v : Value) (ref : Value) : Value :=
  match v with
  | .arr _ => .arr [ref]
  | _ => ref

/-- The elision pass of `transformFields` (its first `for` loop): delete every
key whose hierarchical path is a status field or exactly matches an entry of
the omitted-fields list. -/
def elide (r : Resource) (omittedFields : List String) (namePfx : String)
    (params : List (String × Value)) : List (String × Value) :=
  params.filter fun p =>
    !(isStatus r (getHierarchicalName namePfx p.1)
      || omittedFields.contains (getHierarchicalName namePfx p.1))

/-- The rewrite decision of `transformFields`' third loop for a single key: no
rewrite for a field absent from the schema; otherwise the renamed key and
rewritten value chosen by the sensitive / reference / plain-rename precedence
of the source's `switch`. -/
def rewriteKV (r : Resource) (namePfx n : String) (v : Value) : Option (String × Value) :=
  match r.schema (getHierarchicalName namePfx n) with
  | none => none
  | some sch =>
    let fieldPath := getHierarchicalName namePfx n
    let fn := lowerCamel n
    if sch.sensitive then
      some (fn ++ "SecretRef",
        getRefField v (Value.obj [("name", .str (getSecretRef v).1),
                                  ("namespace", .str defaultNamespace),
                                  ("key", .str (getSecretRef v).2)]))
    else if r.references fieldPath ≠ Reference.empty then
      match v with
      | .arr _ =>
        some (referenceFieldName fn sch.typ.isListOrSet (r.references fieldPath).refFieldName,
          getNameRefField v)
      | _ =>
        some (selectorFieldName fn (r.references fieldPath).selectorFieldName,
          getSelectorField v)
    else
      some (fn, v)

/-- One step of the rewrite pass on the mutated map: `delete(params, n)`
followed by the insertion of the renamed key (a no-op when the field is not in
the schema). -/
def rewriteField (r : Resource) (namePfx : String) (m : List (String × Value))
    (n : String) (v : Value) : List (String × Value) :=
  match rewriteKV r namePfx n v with
  | none => m
  | some (k, w) => assocInsert (assocDelete m n) k w

/-- The rewrite pass of `transformFields` (its third `for` loop), iterating
over a stable snapshot of the entries while mutating the map. -/
def rewriteFields (r : Resource) (namePfx : String)
    (params : List (String × Value)) : List (String × Value) :=
  params.foldl (fun acc e => rewriteField r namePfx acc e.1 e.2) params

mutual

/-- `transformFields` from the source: the three-pass, depth-first transform of
one level of the parameter tree — elide status/omitted keys, recurse into
nested trees and into tree-shaped sequence elements, then rewrite every
surviving schema field. -/
def transformFields (r : Resource) (params : List (String × Value))
    (omittedFields : List String) (namePfx : String) : List (String × Value) :=
  rewriteFields r namePfx
    (transformEntries r (elide r omittedFields namePfx params) omittedFields namePfx)
termination_by sizeOf params + 1
decreasing_by
  simp only [elide]
  have hle : ∀ (l : List (String × Value)),
      sizeOf (l.filter (fun p => !(isStatus r (getHierarchicalName namePfx p.1)
        || omittedFields.contains (getHierarchicalName namePfx p.1)))) ≤ sizeOf l := by
    intro l
    induction l with
    | nil => exact Nat.le_refl _
    | cons a as ih =>
      rw [List.filter_cons]
      by_cases h : (fun p => !(isStatus r (getHierarchicalName namePfx p.1)
          || omittedFields.contains (getHierarchicalName namePfx p.1))) a = true
      · rw [if_pos h, List.cons.sizeOf_spec, List.cons.sizeOf_spec]
        omega
      · rw [if_neg h, List.cons.sizeOf_spec]
        omega
  have := hle params
  omega

/-- The recursion pass of `transformFields` (its second `for` loop), applied to
each surviving entry. -/
def transformEntries (r : Resource) (entries : List (String × Value))
    (omittedFields : List String) (namePfx : String) : List (String × Value) :=
  match entries with
  | [] => []
  | (n, v) :: rest =>
    (n, transformValue r v omittedFields (getHierarchicalName namePfx n))
      :: transformEntries r rest omittedFields namePfx
termination_by sizeOf entries

/-- Recursion into one value: nested trees are transformed with the extended
path; sequences are traversed element-wise; scalars are untouched. -/
def transformValue (r : Resource) (v : Value) (omittedFields : List String)
    (hName : String) : Value :=
  match v with
  | .obj sub => .obj (transformFields r sub omittedFields hName)
  | .arr es => .arr (transformElems r es omittedFields hName)
  | _ => v
termination_by sizeOf v + 1

/-- Recursion into the elements of a sequence: only elements that are
themselves trees are transformed (with the sequence's own path). -/
def transformElems (r : Resource) (es : List Value) (omittedFields : List String)
    (hName : String) : List Value :=
  match es with
  | [] => []
  | e :: rest =>
    (match e with
      | .obj sub => .obj (transformFields r sub omittedFields hName)
      | _ => e) :: transformElems r rest omittedFields hName
termination_by sizeOf es

end

/-- Modelled from the spec: `reference.PavedWithManifest` — the paved working
document together with the bookkeeping needed to mutate and serialize it
(section 3, PavedManifest).  The mutable `ExampleName` field of the Go struct
is modelled by `writeManifest` returning the recorded name. -/
structure PavedWithManifest where
  paved : Value
  paramsPfx : List String
  config : Resource
  group : String
  version : String
  manifestPath : String

/-- Modelled from the spec: `reference.ResolutionContext` — the mapping from
resource identifiers to already-paved documents, plus the wildcard flag
(section 3). -/
structure ResolutionContext where
  wildcardNames : Bool
  context : List (String × PavedWithManifest)

/-- `paveCRManifest` from the source: transform the parameter tree in place,
then build the document skeleton around it. -/
def paveCRManifest (exampleParams : List (String × Value)) (r : Resource)
    (eName group version : String) : PavedWithManifest :=
  let ps := transformFields r exampleParams r.omittedFields ""
  PavedWithManifest.mk
    (Value.obj
      [("apiVersion", .str (group ++ "/" ++ version)),
       ("kind", .str r.kind),
       ("metadata", .obj [("labels", .obj [(labelExampleName, .str eName)])]),
       ("spec", .obj [("forProvider", .obj ps)])])
    ["spec", "forProvider"] r group version ""

/-- `dns1123Name` from the source. -/
def dns1123Name (n : String) : String :=
  strReplace (strToLower n) "_" "-"

/-- `fieldpath.Paved.GetValue` along a segment path, as far as this pipeline
needs it: step through nested trees. -/
def getPath : Value → List String → Option Value
  | v, [] => some v
  | .obj m, k :: ks =>
    (match assocGet m k with
     | some v => getPath v ks
     | none => none)
  | _, _ :: _ => none

/-- `errors.Wrap` / `errors.Wrapf`: prefix an error with a context message. -/
def wrapErr {α : Type} (msg : String) : Except String α → Except String α
  | .ok a => .ok a
  | .error e => .error (msg ++ ": " ++ e)

/-- The `pm.Paved.GetValue("metadata.labels")` step of `writeManifest`,
followed by the `labels.(map[string]string)` assertion (whose failure is a Go
panic, embedded as an error). -/
def getLabelsMap (resolved : Value) : Except String (List (String × Value)) :=
  match getPath resolved ["metadata", "labels"] with
  | none => .error "cannot get \"metadata.labels\" from paved"
  | some (.obj labels) => .ok labels
  | some _ => .error "panic: interface conversion: metadata.labels is not a string map"

/-- The label read `labels[labelExampleName]` (Go string-map indexing defaults
to the empty string; a non-string binding would already have failed the
string-map assertion, embedded as an error). -/
def getExampleLabel (labels : List (String × Value)) : Except String String :=
  match assocGet labels labelExampleName with
  | some (Value.str s) => .ok s
  | none => .ok ""
  | some _ => .error "panic: interface conversion: example-name label is not a string"

/-- `pm.Paved.SetValue("metadata.name", ...)`: set the name inside the metadata
tree, creating it when absent, failing when an intermediate is not a tree. -/
def setMetadataName (doc : Value) (n : String) : Except String Value :=
  match doc with
  | .obj dm =>
    (match assocGet dm "metadata" with
     | some (.obj mm) =>
       .ok (.obj (assocInsert dm "metadata" (.obj (assocInsert mm "name" (.str n)))))
     | some _ => .error "metadata is not an object"
     | none => .ok (.obj (assocInsert dm "metadata" (.obj [("name", .str n)]))))
  | _ => .error "document is not an object"

/-- The `delete(u["spec"].(map[string]any)["forProvider"].(map[string]any),
"depends_on")` step of `writeManifest`; the Go type assertions panic on a
non-tree, embedded as errors. -/
def deleteDependsOn : Value → Except String Value
  | .obj dm =>
    (match assocGet dm "spec" with
     | some (.obj sm) =>
       (match assocGet sm "forProvider" with
        | some (.obj fp) =>
          .ok (.obj (assocInsert dm "spec"
            (.obj (assocInsert sm "forProvider" (.obj (assocDelete fp "depends_on"))))))
        | _ => .error "panic: interface conversion: spec.forProvider is not an object")
     | _ => .error "panic: interface conversion: spec is not an object")
  | _ => .error "panic: interface conversion: manifest is not an object"

/-- `writeManifest` from the source, with the external resolver passed in
(`eg.ResolveReferencesOfPaved`, consumed through its interface): resolve
references, read the example-name label, record the DNS-1123 name, set
`metadata.name`, strip the synthetic `depends_on` key, and emit the document.
Serialization to YAML is modelled by returning the document to be appended to
the buffer, paired with the recorded example name. -/
def writeManifest (resolve : ResolutionContext → Value → Except String Value)
    (pm : PavedWithManifest) (resolutionContext : ResolutionContext) :
    Except String (Value × String) :=
  (wrapErr "cannot resolve references of resource" (resolve resolutionContext pm.paved)).bind
    fun resolved =>
  (getLabelsMap resolved).bind
    fun labels =>
  (getExampleLabel labels).bind fun lbl =>
  let exampleName := dns1123Name lbl
  (wrapErr ("cannot set \"metadata.name\" for resource \"" ++ pm.config.name ++ "\":"
      ++ exampleName) (setMetadataName resolved exampleName)).bind
    fun doc1 =>
  (deleteDependsOn doc1).map fun doc2 => (doc2, exampleName)

/-- Modelled from the spec: the resource component of a dotted identifier
(`reference.NewRefPartsFromResourceName(rn).Resource`). -/
def refResource (rn : String) : String :=
  (strSplitOn rn ".").headD ""

/-- Modelled from the spec: the example-name component of a dotted identifier
(`reference.NewRefPartsFromResourceName(rn).ExampleName`). -/
def refExampleName (rn : String) : String :=
  String.intercalate "." ((strSplitOn rn ".").tail)

/-- Modelled from the spec: `Parts.GetResourceName` — the dotted identifier of
an example, with the wildcard suffix meaning "any example of this type"
(section 6). -/
def getResourceName (resource eName : String) (wildcard : Bool) : String :=
  resource ++ "." ++ (if wildcard then "*" else eName)

/-- `sort.Strings`, embedded as insertion sort under the lexicographic
order. -/
def sortStrings (l : List String) : List String :=
  l.insertionSort (· ≤ ·)

/-- The dependency-key collection of `StoreExamples`: gather the keys of the
dependency map and sort them. -/
def depKeys (dependencies : List (String × String)) : List String :=
  sortStrings (dependencies.map Prod.fst)

/-- The external collaborators consumed by the store phase: the reference
resolver, the Terraform-JSON decoder (`json.TFParser.Unmarshal`), directory
creation (`os.MkdirAll`), the file writer (`ioutil.WriteFile`, taking the
manifest path and the buffered document sequence) and the
local-resolution-context builder
(`reference.PrepareLocalResolutionContext`); all are interfaces this core
calls but does not implement. -/
structure Env where
  resolve : ResolutionContext → Value → Except String Value
  decode : String → Except String (List (String × Value))
  mkdir : String → Except String Unit
  write : String → List Value → Except String Unit
  prepareLocalCtx : ResourceExample → String → Except String ResolutionContext

/-- The `Generator` state consumed by `StoreExamples`: the configured
resources and the paved manifests produced by `Generate` (a Go map, embedded
as an association list fixing one iteration order). -/
structure Generator where
  rootDir : String
  configResources : List (String × Resource)
  resources : List (String × PavedWithManifest)

/-- `filepath.Dir`, as far as the store phase needs it. -/
def dirOf (p : String) : String :=
  String.intercalate "/" ((strSplitOn p "/").dropLast)

/-- The dependency loop of `StoreExamples`: for each sorted dependency
identifier, skip it when its wildcard resource name is not in the generator's
table, otherwise decode its blob, pave a dependency manifest with the
dependent resource's own config/group/version and append its document. -/
def storeDeps (env : Env) (eg : Generator) (re : ResourceExample)
    (localCtx : ResolutionContext) (rn : String) :
    List String → Except String (List Value)
  | [] => .ok []
  | dn :: rest =>
    match assocGet eg.resources (getResourceName (refResource dn) (refExampleName dn) true) with
    | none => storeDeps env eg re localCtx rn rest
    | some dr =>
      (wrapErr ("cannot unmarshal example manifest for resource: " ++ dr.config.name)
          (env.decode ((assocGet re.dependencies dn).getD ""))).bind
        fun exampleParams =>
      (wrapErr ("cannot store example manifest for " ++ rn ++ " dependency: " ++ dn)
          (writeManifest env.resolve
            (paveCRManifest exampleParams dr.config (refExampleName dn) dr.group dr.version)
            localCtx)).bind
        fun ddoc =>
      (storeDeps env eg re localCtx rn rest).map fun ds => ddoc.1 :: ds

/-- The per-resource body of `StoreExamples`' main loop: create the manifest
directory, resolve and serialize the primary document into the buffer, then —
when the resource's first declared example has dependencies — build the local
resolution context and process the sorted dependency identifiers; finally
write the buffer to the manifest path recorded on the primary manifest
(`ioutil.WriteFile`, whose failure is wrapped with the path and the resource
identifier).  The returned list is the document sequence written to the
resource's file. -/
def storeOne (env : Env) (eg : Generator) (rn : String) (pm : PavedWithManifest) :
    Except String (List Value) :=
  (wrapErr ("cannot mkdir " ++ dirOf pm.manifestPath) (env.mkdir (dirOf pm.manifestPath))).bind
    fun _ =>
  (wrapErr ("cannot store example manifest for resource: " ++ rn)
      (writeManifest env.resolve pm (ResolutionContext.mk true eg.resources))).bind
    fun pdoc =>
  (match assocGet eg.configResources (refResource rn) with
   | none => Except.ok [pdoc.1]
   | some r =>
     match r.metaResource with
     | none => Except.ok [pdoc.1]
     | some mr =>
       match mr.examples with
       | [] => Except.error "panic: runtime error: index out of range"
       | re :: _ =>
         (wrapErr ("cannot prepare local resolution context for resource: " ++ rn)
             (env.prepareLocalCtx re (getResourceName (refResource rn) re.name false))).bind
           fun localCtx =>
         (storeDeps env eg re localCtx rn (depKeys re.dependencies)).map
           fun ds => pdoc.1 :: ds).bind
    fun buff =>
  (wrapErr ("cannot write example manifest file " ++ pm.manifestPath
      ++ " for resource " ++ rn) (env.write pm.manifestPath buff)).map
    fun _ => buff

/-- The main loop of `StoreExamples` over the generator's resources: on the
first failing resource the loop returns that resource's wrapped error, leaving
the remaining resources unprocessed; each preceding resource's file (path and
document sequence) has already been written. -/
def storeExamplesGo (env : Env) (eg : Generator) :
    List (String × PavedWithManifest) → List (String × List Value) × Option String
  | [] => ([], none)
  | (rn, pm) :: rest =>
    match storeOne env eg rn pm with
    | .error e => ([], some e)
    | .ok docs =>
      let r := storeExamplesGo env eg rest
      ((pm.manifestPath, docs) :: r.1, r.2)

/-- `StoreExamples` from the source: run the store loop over the generator's
resource table; the first component lists the files written (path and document
sequence), the second the error aborting the run, if any. -/
def storeExamples (env : Env) (eg : Generator) : List (String × List Value) × Option String :=
  storeExamplesGo env eg eg.resources

/-- The document list a resource's store step produces, with a failing step
producing nothing (its file is never written). -/
def storeDocsD (env : Env) (eg : Generator) (p : String × PavedWithManifest) : List Value :=
  match storeOne env eg p.1 p.2 with
  | .ok ds => ds
  | .error _ => []

/-- The example-name label recorded in a document, as `writeManifest` reads
it (empty when absent). -/
def exampleLabelOf (doc : Value) : String :=
  match getPath doc ["metadata", "labels"] with
  | some (.obj l) =>
    (match assocGet l labelExampleName with
     | some (.str s) => s
     | _ => "")
  | _ => ""

/-- The key that the rewrite pass would insert for an entry, when the field is
in the schema. -/
def rewrittenName (r : Resource) (namePfx n : String) (v : Value) : Option String :=
  (rewriteKV r namePfx n v).map Prod.fst

/-- A value the recursion pass leaves untouched: a scalar, or a sequence with
no tree-shaped element. -/
def untouchedValue : Value → Bool
  | .obj _ => false
  | .arr es => es.all fun e =>
      match e with
      | .obj _ => false
      | _ => true
  | _ => true

/-- A resource with one declared cross-resource reference at path `f`, whose
schema gives `f` list cardinality (not sensitive, not observed). -/
def rC1 : Resource :=
  ⟨"r1", "R1", [],
   fun p => if p = "f" then ⟨"other", "", ""⟩ else Reference.empty,
   fun p => if p = "f" then some ⟨false, false, .typeList⟩ else none,
   none⟩

/-- A resource whose schema marks the root field `password` sensitive. -/
def rC2 : Resource :=
  ⟨"r2", "R2", [],
   fun _ => Reference.empty,
   fun p => if p = "password" then some ⟨false, true, .typeString⟩ else none,
   none⟩

/-- A resource with an empty schema and no declared references. -/
def rC5 : Resource := ⟨"r5", "R5", [], fun _ => Reference.empty, fun _ => none, none⟩

/-- A store-phase environment whose external collaborators all succeed and
whose resolver is the identity on documents. -/
def envOk : Env :=
  ⟨fun _ v => .ok v, fun _ => .error "no decode", fun _ => .ok (), fun _ _ => .ok (),
   fun _ _ => .ok ⟨true, []⟩⟩

/-- A well-formed paved manifest (labels present, `depends_on` present under
`spec.forProvider`). -/
def pmGood : PavedWithManifest :=
  ⟨Value.obj
    [("apiVersion", .str "grp/v1"), ("kind", .str "R5"),
     ("metadata", .obj [("labels", .obj [(labelExampleName, .str "Ex_1")])]),
     ("spec", .obj [("forProvider", .obj [("depends_on", .str "d"), ("a", .num 2)])])],
   ["spec", "forProvider"], rC5, "grp", "v1", "dir/good.yaml"⟩

/-- A malformed paved manifest: its document has no `metadata.labels`, so
`writeManifest` fails on it (a structural, contract-violation error). -/
def pmBad : PavedWithManifest :=
  ⟨Value.obj [], ["spec", "forProvider"], rC5, "grp", "v1", "dir/bad.yaml"⟩

/-- The document `writeManifest` produces from `pmGood` under the identity
resolver: `metadata.name` is set to the DNS-1123 example name and
`depends_on` is stripped. -/
def docGood : Value :=
  Value.obj
    [("apiVersion", .str "grp/v1"), ("kind", .str "R5"),
     ("metadata", .obj [("labels", .obj [(labelExampleName, .str "Ex_1")]),
                        ("name", .str "ex-1")]),
     ("spec", .obj [("forProvider", .obj [("a", .num 2)])])]

/-- A generator whose first resource fails the store phase and whose second
would succeed. -/
def egC3 : Generator := ⟨"", [], [("a.*", pmBad), ("b.*", pmGood)]⟩

/-- A generator with a single well-formed resource. -/
def egC6 : Generator := ⟨"", [], [("b.*", pmGood)]⟩

/-- A well-formed paved manifest whose target path the failing file writer
rejects: it fails only at the `WriteFile` step. -/
def pmBadW : PavedWithManifest :=
  ⟨pmGood.paved, ["spec", "forProvider"], rC5, "grp", "v1", "dir/bad.yaml"⟩

/-- A store-phase environment whose file writer fails on the path
`dir/bad.yaml` and succeeds on every other path. -/
def envW3 : Env :=
  ⟨fun _ v => .ok v, fun _ => .error "no decode", fun _ => .ok (),
   fun path _ => if path = "dir/bad.yaml" then .error "disk full" else .ok (),
   fun _ _ => .ok ⟨true, []⟩⟩

/-- A generator with a succeeding resource, then one failing at the file
write, then another succeeding one. -/
def egW3 : Generator := ⟨"", [], [("b.*", pmGood), ("a.*", pmBadW), ("c.*", pmGood)]⟩

/-- A generator with an empty resource table. -/
def egEmpty : Generator := ⟨"", [], []⟩

/-- A resource example declaring one dependency. -/
def reW : ResourceExample := ⟨"ex", [], [("dep.ex", "blob")]⟩

/-- An empty wildcard resolution context. -/
def ctxW : ResolutionContext := ⟨true, []⟩

/-! ### Association-map lemmas -/

theorem assocGet_delete_self {α : Type} (m : List (String × α)) (k : String) :
    assocGet (assocDelete m k) k = none := by
  induction m with
  | nil => rfl
  | cons a rest ih =>
    obtain ⟨k0, v⟩ := a
    simp only [assocDelete]
    by_cases h : k0 = k
    · rw [if_pos h]; exact ih
    · rw [if_neg h]
      simp only [assocGet]
      rw [if_neg h]
      exact ih

theorem assocGet_delete_ne {α : Type} (m : List (String × α)) (k k' : String)
    (h : k' ≠ k) : assocGet (assocDelete m k) k' = assocGet m k' := by
  induction m with
  | nil => rfl
  | cons a rest ih =>
    obtain ⟨k0, v⟩ := a
    simp only [assocDelete, assocGet]
    by_cases h0 : k0 = k
    · rw [if_pos h0, ih]
      have hne : ¬ (k0 = k') := fun hh => h (hh ▸ h0)
      rw [if_neg hne]
    · rw [if_neg h0]
      simp only [assocGet]
      by_cases h1 : k0 = k'
      · rw [if_pos h1, if_pos h1]
      · rw [if_neg h1, if_neg h1]
        exact ih

theorem assocGet_append {α : Type} (l1 l2 : List (String × α)) (k : String) :
    assocGet (l1 ++ l2) k =
      match assocGet l1 k with
      | some v => some v
      | none => assocGet l2 k := by
  induction l1 with
  | nil => rfl
  | cons a rest ih =>
    obtain ⟨k0, v⟩ := a
    simp only [List.cons_append, assocGet]
    by_cases h : k0 = k
    · rw [if_pos h, if_pos h]
    · rw [if_neg h, if_neg h]
      exact ih

theorem assocGet_insert_self {α : Type} (m : List (String × α)) (k : String) (v : α) :
    assocGet (assocInsert m k v) k = some v := by
  rw [assocInsert, assocGet_append, assocGet_delete_self]
  simp [assocGet]

theorem assocGet_insert_ne {α : Type} (m : List (String × α)) (k k' : String) (v : α)
    (h : k' ≠ k) : assocGet (assocInsert m k v) k' = assocGet m k' := by
  rw [assocInsert, assocGet_append, assocGet_delete_ne m k k' h]
  cases hg : assocGet m k' with
  | some w => rfl
  | none =>
    simp only [assocGet]
    rw [if_neg (fun hh => h hh.symm)]

theorem assocGet_mem {α : Type} {m : List (String × α)} {k : String} {v : α}
    (h : assocGet m k = some v) : (k, v) ∈ m := by
  induction m with
  | nil => simp [assocGet] at h
  | cons a rest ih =>
    obtain ⟨k0, v0⟩ := a
    simp only [assocGet] at h
    by_cases h0 : k0 = k
    · rw [if_pos h0] at h
      injection h with h1
      subst h0
      subst h1
      exact List.Mem.head _
    · rw [if_neg h0] at h
      exact List.Mem.tail _ (ih h)

theorem containsKey_of_mem {α : Type} {m : List (String × α)} {k : String} {v : α}
    (h : (k, v) ∈ m) : containsKey m k = true := by
  induction m with
  | nil => simp at h
  | cons a rest ih =>
    obtain ⟨k0, v0⟩ := a
    rw [containsKey]
    simp only [assocGet]
    by_cases h0 : k0 = k
    · rw [if_pos h0]
      rfl
    · rw [if_neg h0]
      rcases List.mem_cons.mp h with he | ht
      · exact absurd (congrArg Prod.fst he).symm h0
      · exact ih ht

theorem containsKey_insert {α : Type} (m : List (String × α)) (k k' : String) (v : α) :
    containsKey (assocInsert m k v) k' = true ↔ (k' = k ∨ containsKey m k' = true) := by
  by_cases h : k' = k
  · subst h
    simp [containsKey, assocGet_insert_self]
  · rw [containsKey, assocGet_insert_ne m k k' v h]
    simp [containsKey, h]

theorem containsKey_delete {α : Type} {m : List (String × α)} {k k' : String}
    (h : containsKey (assocDelete m k) k' = true) : containsKey m k' = true := by
  by_cases he : k' = k
  · subst he
    rw [containsKey, assocGet_delete_self] at h
    simp at h
  · rwa [containsKey, assocGet_delete_ne m k k' he] at h

/-! ### Unfolding and structure lemmas for the transform passes -/

theorem transformFields_eq (r : Resource) (m : List (String × Value))
    (o : List String) (pfx : String) :
    transformFields r m o pfx
      = rewriteFields r pfx (transformEntries r (elide r o pfx m) o pfx) := by
  rw [transformFields]

theorem transformEntries_nil (r : Resource) (o : List String) (pfx : String) :
    transformEntries r [] o pfx = [] := by
  rw [transformEntries]

theorem transformEntries_cons (r : Resource) (n : String) (v : Value)
    (rest : List (String × Value)) (o : List String) (pfx : String) :
    transformEntries r ((n, v) :: rest) o pfx
      = (n, transformValue r v o (getHierarchicalName pfx n))
          :: transformEntries r rest o pfx := by
  rw [transformEntries]

theorem transformValue_str (r : Resource) (s : String) (o : List String) (h : String) :
    transformValue r (.str s) o h = .str s := by
  rw [transformValue]
  all_goals exact fun _ hh => nomatch hh

theorem transformValue_num (r : Resource) (n : Int) (o : List String) (h : String) :
    transformValue r (.num n) o h = .num n := by
  rw [transformValue]
  all_goals exact fun _ hh => nomatch hh

theorem transformValue_bool (r : Resource) (b : Bool) (o : List String) (h : String) :
    transformValue r (.bool b) o h = .bool b := by
  rw [transformValue]
  all_goals exact fun _ hh => nomatch hh

theorem transformValue_null (r : Resource) (o : List String) (h : String) :
    transformValue r .null o h = .null := by
  rw [transformValue]
  all_goals exact fun _ hh => nomatch hh

theorem transformValue_obj (r : Resource) (m : List (String × Value))
    (o : List String) (h : String) :
    transformValue r (.obj m) o h = .obj (transformFields r m o h) := by
  rw [transformValue]

theorem transformValue_arr (r : Resource) (es : List Value) (o : List String) (h : String) :
    transformValue r (.arr es) o h = .arr (transformElems r es o h) := by
  rw [transformValue]

theorem transformElems_nil (r : Resource) (o : List String) (h : String) :
    transformElems r [] o h = [] := by
  rw [transformElems]

theorem transformElems_cons (r : Resource) (e : Value) (rest : List Value)
    (o : List String) (h : String) :
    transformElems r (e :: rest) o h
      = (match e with
          | .obj sub => Value.obj (transformFields r sub o h)
          | _ => e) :: transformElems r rest o h := by
  cases e with
  | obj sub => rw [transformElems]
  | str s => rw [transformElems]; all_goals exact fun _ hh => nomatch hh
  | num n => rw [transformElems]; all_goals exact fun _ hh => nomatch hh
  | bool b => rw [transformElems]; all_goals exact fun _ hh => nomatch hh
  | null => rw [transformElems]; all_goals exact fun _ hh => nomatch hh
  | arr es2 => rw [transformElems]; all_goals exact fun _ hh => nomatch hh

theorem transformElems_length (r : Resource) (es : List Value)
    (o : List String) (h : String) :
    (transformElems r es o h).length = es.length := by
  induction es with
  | nil => rw [transformElems_nil]
  | cons e rest ih =>
    rw [transformElems_cons, List.length_cons, List.length_cons, ih]

theorem transformValue_isArr (r : Resource) (v : Value) (o : List String) (h : String) :
    (transformValue r v o h).isArr = v.isArr := by
  cases v with
  | str s => rw [transformValue_str]
  | num n => rw [transformValue_num]
  | bool b => rw [transformValue_bool]
  | null => rw [transformValue_null]
  | arr es => rw [transformValue_arr]; rfl
  | obj m => rw [transformValue_obj]; rfl

theorem transformEntries_get (r : Resource) (l : List (String × Value))
    (o : List String) (pfx n : String) :
    assocGet (transformEntries r l o pfx) n
      = (assocGet l n).map fun v => transformValue r v o (getHierarchicalName pfx n) := by
  induction l with
  | nil => rw [transformEntries_nil]; rfl
  | cons a rest ih =>
    obtain ⟨k, v⟩ := a
    rw [transformEntries_cons]
    simp only [assocGet]
    by_cases hk : k = n
    · subst hk
      rw [if_pos rfl, if_pos rfl]
      rfl
    · rw [if_neg hk, if_neg hk]
      exact ih

theorem mem_transformEntries {r : Resource} {l : List (String × Value)}
    {o : List String} {pfx : String} {n : String} {v : Value}
    (h : (n, v) ∈ transformEntries r l o pfx) :
    ∃ v0, (n, v0) ∈ l ∧ v = transformValue r v0 o (getHierarchicalName pfx n) := by
  induction l with
  | nil =>
    rw [transformEntries_nil] at h
    simp at h
  | cons a rest ih =>
    obtain ⟨k, w⟩ := a
    rw [transformEntries_cons] at h
    rcases List.mem_cons.mp h with he | ht
    · cases he
      exact ⟨w, List.Mem.head _, rfl⟩
    · obtain ⟨v0, hm, hv⟩ := ih ht
      exact ⟨v0, List.Mem.tail _ hm, hv⟩

theorem containsKey_transformEntries (r : Resource) (l : List (String × Value))
    (o : List String) (pfx n : String) :
    containsKey (transformEntries r l o pfx) n = containsKey l n := by
  rw [containsKey, containsKey, transformEntries_get]
  cases assocGet l n <;> rfl

theorem containsKey_elide {r : Resource} {o : List String} {pfx : String}
    {m : List (String × Value)} {k : String}
    (h : containsKey (elide r o pfx m) k = true) :
    isStatus r (getHierarchicalName pfx k) = false
      ∧ o.contains (getHierarchicalName pfx k) = false := by
  rw [containsKey] at h
  cases hg : assocGet (elide r o pfx m) k with
  | none => rw [hg] at h; simp at h
  | some v =>
    have hm := assocGet_mem hg
    rw [elide] at hm
    have hp := List.of_mem_filter hm
    simp only [Bool.not_eq_true', Bool.or_eq_false_iff] at hp
    exact hp

theorem untouched_transformValue {r : Resource} {v : Value} {o : List String}
    {h : String} (hu : untouchedValue v = true) :
    transformValue r v o h = v := by
  cases v with
  | str s => rw [transformValue_str]
  | num n => rw [transformValue_num]
  | bool b => rw [transformValue_bool]
  | null => rw [transformValue_null]
  | obj m => simp [untouchedValue] at hu
  | arr es =>
    rw [transformValue_arr]
    congr 1
    rw [untouchedValue] at hu
    induction es with
    | nil => rw [transformElems_nil]
    | cons e rest ih =>
      rw [List.all_cons, Bool.and_eq_true] at hu
      rw [transformElems_cons, ih hu.2]
      cases e with
      | obj m => simp at hu
      | str s => rfl
      | num n => rfl
      | bool b => rfl
      | null => rfl
      | arr es2 => rfl

/-! ### The rewrite decision, case by case -/

theorem rewriteKV_none (r : Resource) (pfx n : String) (v : Value)
    (hs : r.schema (getHierarchicalName pfx n) = none) :
    rewriteKV r pfx n v = none := by
  simp only [rewriteKV, hs]

theorem rewriteKV_sensitive (r : Resource) (pfx n : String) (v : Value) (sch : FieldSchema)
    (hs : r.schema (getHierarchicalName pfx n) = some sch)
    (hsen : sch.sensitive = true) :
    rewriteKV r pfx n v = some (lowerCamel n ++ "SecretRef",
      getRefField v (Value.obj [("name", .str (getSecretRef v).1),
        ("namespace", .str defaultNamespace), ("key", .str (getSecretRef v).2)])) := by
  simp only [rewriteKV, hs, hsen, if_true]

theorem rewriteKV_ref_arr (r : Resource) (pfx n : String) (es : List Value)
    (sch : FieldSchema)
    (hs : r.schema (getHierarchicalName pfx n) = some sch)
    (hsen : sch.sensitive = false)
    (href : r.references (getHierarchicalName pfx n) ≠ Reference.empty) :
    rewriteKV r pfx n (.arr es) = some
      (referenceFieldName (lowerCamel n) sch.typ.isListOrSet
        (r.references (getHierarchicalName pfx n)).refFieldName,
       getNameRefField (.arr es)) := by
  simp [rewriteKV, hs, hsen, href]

theorem rewriteKV_ref_other (r : Resource) (pfx n : String) (v : Value)
    (sch : FieldSchema)
    (hs : r.schema (getHierarchicalName pfx n) = some sch)
    (hsen : sch.sensitive = false)
    (href : r.references (getHierarchicalName pfx n) ≠ Reference.empty)
    (hv : v.isArr = false) :
    rewriteKV r pfx n v = some
      (selectorFieldName (lowerCamel n)
        (r.references (getHierarchicalName pfx n)).selectorFieldName,
       getSelectorField v) := by
  cases v with
  | arr es => simp [Value.isArr] at hv
  | str s => simp [rewriteKV, hs, hsen, href]
  | num k => simp [rewriteKV, hs, hsen, href]
  | bool b => simp [rewriteKV, hs, hsen, href]
  | null => simp [rewriteKV, hs, hsen, href]
  | obj m => simp [rewriteKV, hs, hsen, href]

/-! ### The transform of a single-field tree -/

theorem transformFields_single (r : Resource) (omitted : List String) (pfx n : String)
    (v : Value)
    (hstat : isStatus r (getHierarchicalName pfx n) = false)
    (homit : omitted.contains (getHierarchicalName pfx n) = false) :
    transformFields r [(n, v)] omitted pfx
      = rewriteField r pfx [(n, transformValue r v omitted (getHierarchicalName pfx n))] n
          (transformValue r v omitted (getHierarchicalName pfx n)) := by
  rw [transformFields_eq]
  have hpred : (!(isStatus r (getHierarchicalName pfx n)
      || omitted.contains (getHierarchicalName pfx n))) = true := by
    rw [hstat, homit]
    rfl
  have he : elide r omitted pfx [(n, v)] = [(n, v)] := by
    rw [elide, List.filter_cons, if_pos hpred, List.filter_nil]
  rw [he, transformEntries_cons, transformEntries_nil, rewriteFields]
  simp only [List.foldl_cons, List.foldl_nil]

theorem rewriteField_single (r : Resource) (pfx n : String) (tv : Value) (k : String)
    (w : Value) (hkv : rewriteKV r pfx n tv = some (k, w)) :
    rewriteField r pfx [(n, tv)] n tv = [(k, w)] := by
  simp [rewriteField, hkv, assocInsert, assocDelete]

/-! ### Claims about the rewrite of reference-bearing fields -/

/-- C1 counterexample: for the resource `rC1`, the path `f` bears a declared
reference and its schema cardinality is list, yet with a scalar original value
the rewrite pass inserts a selector key (a `matchLabels` object, not a
sequence), refuting the claim that list/set cardinality alone forces a
reference array. -/
theorem c1_counterexample :
    transformFields rC1 [("f", Value.str "x")] [] ""
      = [("fSelector", Value.obj [("matchLabels",
          Value.obj [(labelExampleName, Value.str "example")])])]
    ∧ Value.isArr (Value.obj [("matchLabels",
        Value.obj [(labelExampleName, Value.str "example")])]) = false
    ∧ (rC1.schema "f").map FieldSchema.typ = some SchemaType.typeList := by
  refine ⟨?_, rfl, rfl⟩
  rw [transformFields_single rC1 [] "" "f" (Value.str "x") rfl rfl, transformValue_str]
  rfl

/-- C1 amended: for a reference-bearing schema field (present, not sensitive,
not observed, not omitted), the rewrite pass inserts a reference-array key
exactly when the original value is an ordered sequence — one `{name: ...}`
object per element, preserving length; the list/set schema cardinality only
selects the pluralized derived field name.  In every other case (scalars
included, whatever the cardinality) it inserts a selector key whose value is
the `matchLabels` object of `getSelectorField`. -/
theorem c1_amended (r : Resource) (omitted : List String) (pfx n : String)
    (sch : FieldSchema)
    (hs : r.schema (getHierarchicalName pfx n) = some sch)
    (hobs : sch.isObserved = false)
    (hsen : sch.sensitive = false)
    (href : r.references (getHierarchicalName pfx n) ≠ Reference.empty)
    (homit : omitted.contains (getHierarchicalName pfx n) = false) :
    (∀ es : List Value,
      transformFields r [(n, Value.arr es)] omitted pfx
        = [(referenceFieldName (lowerCamel n) sch.typ.isListOrSet
              (r.references (getHierarchicalName pfx n)).refFieldName,
            getNameRefField (Value.arr (transformElems r es omitted (getHierarchicalName pfx n))))]
      ∧ arrLength (getNameRefField
            (Value.arr (transformElems r es omitted (getHierarchicalName pfx n))))
          = some es.length)
    ∧ (∀ v : Value, v.isArr = false →
      transformFields r [(n, v)] omitted pfx
        = [(selectorFieldName (lowerCamel n)
              (r.references (getHierarchicalName pfx n)).selectorFieldName,
            getSelectorField (transformValue r v omitted (getHierarchicalName pfx n)))]) := by
  have hstat : isStatus r (getHierarchicalName pfx n) = false := by
    rw [isStatus, hs]
    exact hobs
  constructor
  · intro es
    constructor
    · rw [transformFields_single r omitted pfx n (Value.arr es) hstat homit,
        transformValue_arr]
      exact rewriteField_single r pfx n _ _ _
        (rewriteKV_ref_arr r pfx n _ sch hs hsen href)
    · simp [getNameRefField, arrLength, transformElems_length]
  · intro v hv
    rw [transformFields_single r omitted pfx n v hstat homit]
    have htv : (transformValue r v omitted (getHierarchicalName pfx n)).isArr = false := by
      rw [transformValue_isArr]
      exact hv
    exact rewriteField_single r pfx n _ _ _
      (rewriteKV_ref_other r pfx n _ sch hs hsen href htv)

/-- C1 witness: the amended theorem at `rC1` — a two-element sequence becomes
a two-element `{name}` array under the pluralized key `fRefs`, and a scalar
whose text matches the reference pattern becomes a selector carrying the
resolved example identity. -/
theorem c1_witness :
    transformFields rC1 [("f", Value.arr [Value.str "x", Value.str "y"])] [] ""
      = [("fRefs", Value.arr [Value.obj [("name", Value.str "example")],
          Value.obj [("name", Value.str "example")]])]
    ∧ transformFields rC1 [("f", Value.str "$\x7bvault_generic_secret.ex_db.attr\x7d")] [] ""
      = [("fSelector", Value.obj [("matchLabels",
          Value.obj [(labelExampleName, Value.str "ex-db")])])] := by
  constructor
  · have h := (c1_amended rC1 [] "" "f" ⟨false, false, .typeList⟩ rfl rfl rfl
      (by decide) rfl).1 [Value.str "x", Value.str "y"]
    rw [h.1, transformElems_cons, transformElems_cons, transformElems_nil]
    rfl
  · have h := (c1_amended rC1 [] "" "f" ⟨false, false, .typeList⟩ rfl rfl rfl
      (by decide) rfl).2 (Value.str "$\x7bvault_generic_secret.ex_db.attr\x7d") rfl
    rw [h, transformValue_str]
    rfl

/-! ### Claims about the sensitive-field scenario -/

/-- C2 counterexample: on the spec's end-to-end input, the code removes
`password` and inserts `passwordSecretRef`, but the inserted object is
`{name: "example-", namespace: "upbound-system", key: "attribute.ex_db.password"}`:
`getSecretRef` derives the name from the first dotted component (`data`, whose
underscore-tail is empty) and the key from the components from index two on,
so the claimed `{name: "example-db", ..., key: "attribute.password"}` is not
produced. -/
theorem c2_counterexample :
    transformFields rC2
        [("password", Value.str "$\x7bdata.vault_secret.ex_db.password\x7d")] [] ""
      = [("passwordSecretRef", Value.obj
          [("name", Value.str "example-"),
           ("namespace", Value.str "upbound-system"),
           ("key", Value.str "attribute.ex_db.password")])]
    ∧ Value.obj
          [("name", Value.str "example-"),
           ("namespace", Value.str "upbound-system"),
           ("key", Value.str "attribute.ex_db.password")]
        ≠ Value.obj
          [("name", Value.str "example-db"),
           ("namespace", Value.str "upbound-system"),
           ("key", Value.str "attribute.password")] := by
  constructor
  · rw [transformFields_single rC2 [] "" "password"
      (Value.str "$\x7bdata.vault_secret.ex_db.password\x7d") rfl rfl, transformValue_str]
    rfl
  · decide

/-- C2 amended: transforming the single sensitive field `password` with value
`${data.vault_secret.ex_db.password}` removes `password` and inserts
`passwordSecretRef` whose value is exactly `{name: "example-", namespace:
"upbound-system", key: "attribute.ex_db.password"}` — the name is
`example-` followed by the underscore-tail of the first dotted component of
the inner expression, and the key joins the components from index two on. -/
theorem c2_amended :
    transformFields rC2
        [("password", Value.str "$\x7bdata.vault_secret.ex_db.password\x7d")] [] ""
      = [("passwordSecretRef", Value.obj
          [("name", Value.str "example-"),
           ("namespace", Value.str "upbound-system"),
           ("key", Value.str "attribute.ex_db.password")])]
    ∧ assocGet (transformFields rC2
        [("password", Value.str "$\x7bdata.vault_secret.ex_db.password\x7d")] [] "")
        "password" = none := by
  have h : transformFields rC2
      [("password", Value.str "$\x7bdata.vault_secret.ex_db.password\x7d")] [] ""
      = [("passwordSecretRef", Value.obj
          [("name", Value.str "example-"),
           ("namespace", Value.str "upbound-system"),
           ("key", Value.str "attribute.ex_db.password")])] := by
    rw [transformFields_single rC2 [] "" "password"
      (Value.str "$\x7bdata.vault_secret.ex_db.password\x7d") rfl rfl, transformValue_str]
    rfl
  refine ⟨h, ?_⟩
  rw [h]
  rfl

/-! ### Claims about pass-through of non-schema fields -/

/-- C5 counterexample: the key `outer` is absent from the schema and survives
under its original name, but its value is not identical after transformation —
the nested key `outer.inner` is in the omitted list and is elided from the
nested tree during the recursion pass. -/
theorem c5_counterexample :
    transformFields rC5 [("outer", Value.obj [("inner", Value.num 1)])] ["outer.inner"] ""
      = [("outer", Value.obj [])]
    ∧ Value.obj ([] : List (String × Value)) ≠ Value.obj [("inner", Value.num 1)] := by
  constructor
  · rw [transformFields_single rC5 ["outer.inner"] "" "outer"
      (Value.obj [("inner", Value.num 1)]) rfl (by decide), transformValue_obj]
    have hin : transformFields rC5 [("inner", Value.num 1)] ["outer.inner"]
        (getHierarchicalName "" "outer") = [] := by
      rw [transformFields_eq]
      have he : elide rC5 ["outer.inner"] (getHierarchicalName "" "outer")
          [("inner", Value.num 1)] = [] := by
        rw [elide, List.filter_cons, if_neg (by decide), List.filter_nil]
      rw [he, transformEntries_nil, rewriteFields]
      rfl
    rw [hin]
    rfl
  · decide

/-- C5 amended: a field whose path is absent from the schema (and not omitted)
keeps its original key; its value is the recursive transform of the original
value — identical to the original exactly in the untouched cases (a scalar, or
a sequence without tree-shaped elements); nested trees inside it are
themselves transformed, so their fields may be elided or renamed. -/
theorem c5_amended (r : Resource) (omitted : List String) (pfx n : String) (v : Value)
    (hs : r.schema (getHierarchicalName pfx n) = none)
    (homit : omitted.contains (getHierarchicalName pfx n) = false) :
    transformFields r [(n, v)] omitted pfx
      = [(n, transformValue r v omitted (getHierarchicalName pfx n))]
    ∧ (untouchedValue v = true → transformFields r [(n, v)] omitted pfx = [(n, v)]) := by
  have hstat : isStatus r (getHierarchicalName pfx n) = false := by
    rw [isStatus, hs]
  have h1 : transformFields r [(n, v)] omitted pfx
      = [(n, transformValue r v omitted (getHierarchicalName pfx n))] := by
    rw [transformFields_single r omitted pfx n v hstat homit, rewriteField,
      rewriteKV_none r pfx n _ hs]
  exact ⟨h1, fun hu => by rw [h1, untouched_transformValue hu]⟩

/-- C5 witness: the amended theorem applied to a non-schema scalar field and a
non-schema sequence of scalars — both pass through unrenamed and unchanged. -/
theorem c5_witness :
    transformFields rC5 [("free_form", Value.str "x")] [] ""
      = [("free_form", Value.str "x")]
    ∧ transformFields rC5 [("tags", Value.arr [Value.str "a", Value.num 2])] [] ""
      = [("tags", Value.arr [Value.str "a", Value.num 2])] :=
  ⟨(c5_amended rC5 [] "" "free_form" (Value.str "x") rfl rfl).2 rfl,
   (c5_amended rC5 [] "" "tags" (Value.arr [Value.str "a", Value.num 2]) rfl rfl).2 rfl⟩

/-! ### Keys surviving the rewrite pass -/

theorem containsKey_rewriteField {r : Resource} {pfx : String}
    {acc : List (String × Value)} {a : String} {b : Value} {k : String}
    (h : containsKey (rewriteField r pfx acc a b) k = true) :
    containsKey acc k = true ∨ rewrittenName r pfx a b = some k := by
  rw [rewriteField] at h
  cases hkv : rewriteKV r pfx a b with
  | none =>
    rw [hkv] at h
    exact Or.inl h
  | some p =>
    obtain ⟨k', w⟩ := p
    rw [hkv] at h
    rcases (containsKey_insert _ _ _ _).mp h with he | hd
    · right
      rw [rewrittenName, hkv, he]
      rfl
    · exact Or.inl (containsKey_delete hd)

theorem containsKey_foldl_rewrite {r : Resource} {pfx : String} {k : String} :
    ∀ (entries acc : List (String × Value)),
      containsKey (entries.foldl (fun acc e => rewriteField r pfx acc e.1 e.2) acc) k = true →
      containsKey acc k = true
        ∨ ∃ e, e ∈ entries ∧ rewrittenName r pfx e.1 e.2 = some k
  | [], _, h => Or.inl h
  | e0 :: rest, acc, h => by
    rw [List.foldl_cons] at h
    rcases containsKey_foldl_rewrite rest _ h with hacc | ⟨e, he, hk⟩
    · rcases containsKey_rewriteField hacc with h1 | h2
      · exact Or.inl h1
      · exact Or.inr ⟨e0, List.Mem.head _, h2⟩
    · exact Or.inr ⟨e, List.Mem.tail _ he, hk⟩

theorem mem_elide_pred {r : Resource} {o : List String} {pfx : String}
    {m : List (String × Value)} {n : String} {v : Value}
    (h : (n, v) ∈ elide r o pfx m) :
    isStatus r (getHierarchicalName pfx n) = false
      ∧ o.contains (getHierarchicalName pfx n) = false := by
  rw [elide] at h
  have hp := List.of_mem_filter h
  simp only [Bool.not_eq_true', Bool.or_eq_false_iff] at hp
  exact hp

/-! ### Claims about elision completeness -/

/-- C4 counterexample: with `passwordSecretRef` in the omitted-fields list and
a sensitive `password` field, the transformed tree contains the key
`passwordSecretRef`, whose hierarchical path exactly matches an omitted-fields
entry — the rewrite pass reintroduces names the elision pass never checked. -/
theorem c4_counterexample :
    containsKey (transformFields rC2 [("password", Value.str "pw")]
        ["passwordSecretRef"] "") "passwordSecretRef" = true
    ∧ ["passwordSecretRef"].contains "passwordSecretRef" = true := by
  constructor
  · rw [transformFields_single rC2 ["passwordSecretRef"] "" "password" (Value.str "pw")
      rfl (by decide), transformValue_str]
    rfl
  · decide

/-- C4 amended: at every level (each recursive call of `transformFields`, with
its traversal prefix), every remaining key either has a hierarchical path that
is neither observed-only nor an omitted-fields entry, or is the key the
rewrite pass inserted in place of an entry that survived elision — an entry
whose own hierarchical path passed both checks. -/
theorem c4_amended (r : Resource) (m : List (String × Value)) (omitted : List String)
    (pfx n : String)
    (h : containsKey (transformFields r m omitted pfx) n = true) :
    (isStatus r (getHierarchicalName pfx n) = false
      ∧ omitted.contains (getHierarchicalName pfx n) = false)
    ∨ (∃ n' v', (n', v') ∈ transformEntries r (elide r omitted pfx m) omitted pfx
        ∧ rewrittenName r pfx n' v' = some n
        ∧ isStatus r (getHierarchicalName pfx n') = false
        ∧ omitted.contains (getHierarchicalName pfx n') = false) := by
  rw [transformFields_eq, rewriteFields] at h
  rcases containsKey_foldl_rewrite _ _ h with hk | ⟨e, he, hkv⟩
  · left
    rw [containsKey_transformEntries, containsKey] at hk
    cases hg : assocGet (elide r omitted pfx m) n with
    | none =>
      rw [hg] at hk
      simp at hk
    | some v => exact mem_elide_pred (assocGet_mem hg)
  · right
    obtain ⟨n', v'⟩ := e
    obtain ⟨v0, hm0, _⟩ := mem_transformEntries he
    have hpred := mem_elide_pred hm0
    exact ⟨n', v', he, hkv, hpred.1, hpred.2⟩

/-- C4 witness: the amended theorem applied to a sensitive single-field tree
whose transform contains the inserted key `passwordSecretRef`. -/
theorem c4_witness :
    (isStatus rC2 (getHierarchicalName "" "passwordSecretRef") = false
      ∧ ([] : List String).contains (getHierarchicalName "" "passwordSecretRef") = false)
    ∨ (∃ n' v', (n', v') ∈ transformEntries rC2
          (elide rC2 [] "" [("password", Value.str "pw")]) [] ""
        ∧ rewrittenName rC2 "" n' v' = some "passwordSecretRef"
        ∧ isStatus rC2 (getHierarchicalName "" n') = false
        ∧ ([] : List String).contains (getHierarchicalName "" n') = false) := by
  apply c4_amended rC2 [("password", Value.str "pw")] [] "" "passwordSecretRef"
  rw [transformFields_single rC2 [] "" "password" (Value.str "pw") rfl rfl,
    transformValue_str]
  rfl

/-! ### Claims about the secret-reference extractor -/

/-- C7 counterexample: the claim exempts the file-reference branch.  For the
input string interpolating a file read of `x`, the inner expression has a
single dot-separated component (fewer than three), yet `getSecretRef` returns
the file-derived key `attribute.x`, not the fixed defaults. -/
theorem c7_counterexample :
    matchInterpolation "$\x7bfile(\"x\")\x7d" = some "file(\"x\")"
    ∧ ((strSplitOn "file(\"x\")" ".").length < 3)
    ∧ getSecretRef (Value.str "$\x7bfile(\"x\")\x7d") = ("example-secret", "attribute.x")
    ∧ ("example-secret", "attribute.x") ≠ (("example-secret", "example-key") : String × String) :=
  ⟨rfl, by decide, rfl, by decide⟩

/-- C7 amended: the Secret-Reference Extractor is total, and returns exactly
the fixed defaults (`example-secret`, `example-key`) when the value is not a
string, or the string does not match the interpolation pattern, or the inner
expression does not match the file-reference pattern and splits into fewer
than three dot-separated components; in particular re-running it on the
non-matching string `example-secret` yields the same defaults. -/
theorem c7_amended :
    (∀ v : Value, v.isStr = false → getSecretRef v = ("example-secret", "example-key"))
    ∧ (∀ s : String, matchInterpolation s = none →
        getSecretRef (Value.str s) = ("example-secret", "example-key"))
    ∧ (∀ s inner : String, matchInterpolation s = some inner →
        matchFileRef inner = none → (strSplitOn inner ".").length < 3 →
        getSecretRef (Value.str s) = ("example-secret", "example-key"))
    ∧ getSecretRef (Value.str "example-secret") = ("example-secret", "example-key") := by
  refine ⟨?_, ?_, ?_, rfl⟩
  · intro v hv
    cases v with
    | str s => simp [Value.isStr] at hv
    | num n => rfl
    | bool b => rfl
    | null => rfl
    | arr es => rfl
    | obj m => rfl
  · intro s hm
    simp [getSecretRef, hm]
  · intro s inner hm hf hlen
    simp only [getSecretRef, hm, hf]
    rw [if_pos hlen]

/-- C7 witness: the amended theorem applied at a non-string value, at a
non-matching string, and at a matching interpolation with a two-component
inner expression. -/
theorem c7_witness :
    getSecretRef (Value.num 3) = ("example-secret", "example-key")
    ∧ getSecretRef (Value.str "no-ref") = ("example-secret", "example-key")
    ∧ getSecretRef (Value.str "$\x7ba.b\x7d") = ("example-secret", "example-key") :=
  ⟨c7_amended.1 (Value.num 3) rfl,
   c7_amended.2.1 "no-ref" rfl,
   c7_amended.2.2.1 "$\x7ba.b\x7d" "a.b" rfl rfl (by decide)⟩

/-! ### Inversion lemmas for the store phase -/

theorem exceptBind_ok {α β : Type} {x : Except String α} {f : α → Except String β} {b : β}
    (h : x.bind f = Except.ok b) : ∃ a, x = Except.ok a ∧ f a = Except.ok b := by
  cases x with
  | error e => exact Except.noConfusion h
  | ok a => exact ⟨a, rfl, h⟩

theorem exceptMap_ok {α β : Type} {x : Except String α} {f : α → β} {b : β}
    (h : x.map f = Except.ok b) : ∃ a, x = Except.ok a ∧ f a = b := by
  cases x with
  | error e => exact Except.noConfusion h
  | ok a =>
    simp only [Except.map] at h
    injection h with h1
    exact ⟨a, rfl, h1⟩

theorem wrapErr_ok {α : Type} {msg : String} {x : Except String α} {a : α}
    (h : wrapErr msg x = Except.ok a) : x = Except.ok a := by
  cases x with
  | error e => exact Except.noConfusion h
  | ok b => exact h

theorem writeManifest_ok {resolve : ResolutionContext → Value → Except String Value}
    {pm : PavedWithManifest} {resolutionContext : ResolutionContext} {d : Value}
    {en : String}
    (h : writeManifest resolve pm resolutionContext = Except.ok (d, en)) :
    ∃ resolved labels lbl doc1,
      resolve resolutionContext pm.paved = Except.ok resolved
      ∧ getLabelsMap resolved = Except.ok labels
      ∧ getExampleLabel labels = Except.ok lbl
      ∧ en = dns1123Name lbl
      ∧ setMetadataName resolved (dns1123Name lbl) = Except.ok doc1
      ∧ deleteDependsOn doc1 = Except.ok d := by
  rw [writeManifest] at h
  obtain ⟨resolved, h1, h⟩ := exceptBind_ok h
  obtain ⟨labels, h2, h⟩ := exceptBind_ok h
  obtain ⟨lbl, h3, h⟩ := exceptBind_ok h
  obtain ⟨doc1, h4, h⟩ := exceptBind_ok h
  obtain ⟨doc2, h5, h6⟩ := exceptMap_ok h
  injection h6 with ha hb
  exact ⟨resolved, labels, lbl, doc1, wrapErr_ok h1, h2, h3, hb.symm,
    wrapErr_ok h4, ha ▸ h5⟩

theorem getLabelsMap_ok {resolved : Value} {labels : List (String × Value)}
    (h : getLabelsMap resolved = Except.ok labels) :
    getPath resolved ["metadata", "labels"] = some (Value.obj labels) := by
  rw [getLabelsMap] at h
  cases hg : getPath resolved ["metadata", "labels"] with
  | none =>
    rw [hg] at h
    exact Except.noConfusion h
  | some v =>
    rw [hg] at h
    cases v with
    | obj l =>
      injection h with h1
      rw [h1]
    | str s => exact Except.noConfusion h
    | num k => exact Except.noConfusion h
    | bool b => exact Except.noConfusion h
    | null => exact Except.noConfusion h
    | arr es => exact Except.noConfusion h

theorem getExampleLabel_ok {labels : List (String × Value)} {lbl : String}
    (h : getExampleLabel labels = Except.ok lbl) :
    (match assocGet labels labelExampleName with
     | some (Value.str s) => s
     | _ => "") = lbl := by
  rw [getExampleLabel] at h
  split at h
  next s hg =>
    rw [hg]
    injection h
  next hg =>
    rw [hg]
    injection h
  next => exact Except.noConfusion h

theorem setMetadataName_name {doc d : Value} {en : String}
    (h : setMetadataName doc en = Except.ok d) :
    getPath d ["metadata", "name"] = some (Value.str en) := by
  cases doc with
  | str s => exact Except.noConfusion h
  | num k => exact Except.noConfusion h
  | bool b => exact Except.noConfusion h
  | null => exact Except.noConfusion h
  | arr es => exact Except.noConfusion h
  | obj dm =>
    rw [setMetadataName] at h
    cases hm : assocGet dm "metadata" with
    | none =>
      rw [hm] at h
      injection h with hd
      subst hd
      simp [getPath, assocGet_insert_self, assocGet]
    | some mv =>
      rw [hm] at h
      cases mv with
      | obj mm =>
        injection h with hd
        subst hd
        simp [getPath, assocGet_insert_self]
      | str s => exact Except.noConfusion h
      | num k => exact Except.noConfusion h
      | bool b => exact Except.noConfusion h
      | null => exact Except.noConfusion h
      | arr es => exact Except.noConfusion h

theorem deleteDependsOn_ok {doc d : Value} (h : deleteDependsOn doc = Except.ok d) :
    ∃ dm sm fp,
      doc = Value.obj dm
      ∧ assocGet dm "spec" = some (Value.obj sm)
      ∧ assocGet sm "forProvider" = some (Value.obj fp)
      ∧ d = Value.obj (assocInsert dm "spec"
          (Value.obj (assocInsert sm "forProvider"
            (Value.obj (assocDelete fp "depends_on"))))) := by
  cases doc with
  | str s => exact Except.noConfusion h
  | num k => exact Except.noConfusion h
  | bool b => exact Except.noConfusion h
  | null => exact Except.noConfusion h
  | arr es => exact Except.noConfusion h
  | obj dm =>
    rw [deleteDependsOn] at h
    split at h
    next sm hs =>
      split at h
      next fp hf =>
        injection h with hd
        exact ⟨dm, sm, fp, rfl, hs, hf, hd.symm⟩
      next => exact Except.noConfusion h
    next => exact Except.noConfusion h

theorem deleteDependsOn_no_key {doc d : Value} (h : deleteDependsOn doc = Except.ok d) :
    getPath d ["spec", "forProvider", "depends_on"] = none := by
  obtain ⟨dm, sm, fp, _, _, _, hd⟩ := deleteDependsOn_ok h
  subst hd
  simp [getPath, assocGet_insert_self, assocGet_delete_self]

theorem deleteDependsOn_metadata {doc d : Value} (h : deleteDependsOn doc = Except.ok d) :
    getPath d ["metadata", "name"] = getPath doc ["metadata", "name"] := by
  obtain ⟨dm, sm, fp, hdoc, _, _, hd⟩ := deleteDependsOn_ok h
  subst hd
  subst hdoc
  rw [getPath, getPath, assocGet_insert_ne dm "spec" "metadata" _ (by decide)]

theorem writeManifest_no_depends_on
    {resolve : ResolutionContext → Value → Except String Value}
    {pm : PavedWithManifest} {resolutionContext : ResolutionContext} {d : Value}
    {en : String}
    (h : writeManifest resolve pm resolutionContext = Except.ok (d, en)) :
    getPath d ["spec", "forProvider", "depends_on"] = none := by
  obtain ⟨resolved, labels, lbl, doc1, _, _, _, _, _, h6⟩ := writeManifest_ok h
  exact deleteDependsOn_no_key h6

theorem storeDeps_docs {env : Env} {eg : Generator} {re : ResourceExample}
    {localCtx : ResolutionContext} {rn : String} :
    ∀ {keys : List String} {ds : List Value},
      storeDeps env eg re localCtx rn keys = Except.ok ds →
      ∀ d ∈ ds, ∃ pm' ctx' en, writeManifest env.resolve pm' ctx' = Except.ok (d, en)
  | [], ds, h => by
    rw [storeDeps] at h
    injection h with h1
    subst h1
    intro d hd
    simp at hd
  | dn :: rest, ds, h => by
    rw [storeDeps] at h
    cases hg : assocGet eg.resources
        (getResourceName (refResource dn) (refExampleName dn) true) with
    | none =>
      rw [hg] at h
      exact storeDeps_docs h
    | some dr =>
      rw [hg] at h
      obtain ⟨params, hp, h⟩ := exceptBind_ok h
      obtain ⟨ddoc, hw, h⟩ := exceptBind_ok h
      obtain ⟨ds', hds, hcons⟩ := exceptMap_ok h
      subst hcons
      intro d hd
      rcases List.mem_cons.mp hd with he | ht
      · subst he
        exact ⟨_, localCtx, ddoc.2, wrapErr_ok hw⟩
      · exact storeDeps_docs hds d ht

theorem storeOne_docs {env : Env} {eg : Generator} {rn : String}
    {pm : PavedWithManifest} {ds : List Value}
    (h : storeOne env eg rn pm = Except.ok ds) :
    ∀ d ∈ ds, ∃ pm' ctx' en, writeManifest env.resolve pm' ctx' = Except.ok (d, en) := by
  rw [storeOne] at h
  obtain ⟨u, hmk, h⟩ := exceptBind_ok h
  obtain ⟨pdoc, hw, h⟩ := exceptBind_ok h
  obtain ⟨buff, hbuff, h⟩ := exceptBind_ok h
  obtain ⟨u2, hwrite, hds⟩ := exceptMap_ok h
  have hds2 : buff = ds := hds
  subst hds2
  have hpw := wrapErr_ok hw
  split at hbuff
  · injection hbuff with h1
    subst h1
    intro d hd
    rcases List.mem_cons.mp hd with he | ht
    · subst he
      exact ⟨pm, _, pdoc.2, hpw⟩
    · simp at ht
  · split at hbuff
    · injection hbuff with h1
      subst h1
      intro d hd
      rcases List.mem_cons.mp hd with he | ht
      · subst he
        exact ⟨pm, _, pdoc.2, hpw⟩
      · simp at ht
    · split at hbuff
      · exact Except.noConfusion hbuff
      · obtain ⟨localCtx, hp, hbuff⟩ := exceptBind_ok hbuff
        obtain ⟨dds, hdd, hcons⟩ := exceptMap_ok hbuff
        subst hcons
        intro d hd
        rcases List.mem_cons.mp hd with he | ht
        · subst he
          exact ⟨pm, _, pdoc.2, hpw⟩
        · exact storeDeps_docs hdd d ht

theorem storeExamplesGo_docs {env : Env} {eg : Generator} :
    ∀ {rs : List (String × PavedWithManifest)} {path : String} {ds : List Value},
      (path, ds) ∈ (storeExamplesGo env eg rs).1 →
      ∀ d ∈ ds, ∃ pm' ctx' en, writeManifest env.resolve pm' ctx' = Except.ok (d, en)
  | [], _, _, h => by simp [storeExamplesGo] at h
  | (rn, pm) :: rest, path, ds, h => by
    rw [storeExamplesGo] at h
    cases ho : storeOne env eg rn pm with
    | error e =>
      rw [ho] at h
      simp at h
    | ok docs =>
      rw [ho] at h
      rcases List.mem_cons.mp h with he | ht
      · cases he
        exact storeOne_docs ho
      · exact storeExamplesGo_docs ht

/-! ### Claims about stripping the synthetic dependency key -/

/-- C6: every document in every file the store phase writes has no
`depends_on` key under `spec.forProvider`: each buffered document comes out of
`writeManifest`, which deletes the synthetic key after resolution and before
serialization — for the primary and the dependency manifests alike, and for
every resolver. -/
theorem c6_theorem (env : Env) (eg : Generator) (path : String) (ds : List Value)
    (d : Value)
    (hmem : (path, ds) ∈ (storeExamples env eg).1) (hd : d ∈ ds) :
    getPath d ["spec", "forProvider", "depends_on"] = none := by
  rw [storeExamples] at hmem
  obtain ⟨pm', ctx', en, hw⟩ := storeExamplesGo_docs hmem d hd
  exact writeManifest_no_depends_on hw

/-- C6 witness: the theorem applied to a concrete store run whose input
document carries a `depends_on` key; the written document no longer has it. -/
theorem c6_witness :
    getPath docGood ["spec", "forProvider", "depends_on"] = none := by
  have heq : (storeExamples envOk egC6).1 = [("dir/good.yaml", [docGood])] := rfl
  exact c6_theorem envOk egC6 "dir/good.yaml" [docGood] docGood
    (heq ▸ List.Mem.head _) (List.Mem.head _)

/-! ### Claims about the recorded example name -/

/-- C9: when `writeManifest` succeeds, the produced document's
`metadata.name` equals the DNS-1123 form (lowercased, underscores to hyphens)
of the resolved document's example-name label, and the same string is the
recorded example name (the value assigned to the manifest's `ExampleName`). -/
theorem c9_theorem (resolve : ResolutionContext → Value → Except String Value)
    (pm : PavedWithManifest) (resolutionContext : ResolutionContext) (d : Value)
    (en : String) (resolved : Value)
    (hres : resolve resolutionContext pm.paved = Except.ok resolved)
    (h : writeManifest resolve pm resolutionContext = Except.ok (d, en)) :
    en = dns1123Name (exampleLabelOf resolved)
    ∧ getPath d ["metadata", "name"] = some (Value.str en) := by
  obtain ⟨resolved', labels, lbl, doc1, h1, h2, h3, h4, h5, h6⟩ := writeManifest_ok h
  rw [hres] at h1
  injection h1 with h1
  subst h1
  have hlbl : exampleLabelOf resolved = lbl := by
    rw [exampleLabelOf, getLabelsMap_ok h2]
    exact getExampleLabel_ok h3
  refine ⟨by rw [hlbl, h4], ?_⟩
  rw [deleteDependsOn_metadata h6, setMetadataName_name h5, h4]

/-- C9 witness: the theorem applied to `pmGood`, whose label is `Ex_1`; the
recorded name and `metadata.name` are both `ex-1`. -/
theorem c9_witness :
    ("ex-1" : String) = dns1123Name (exampleLabelOf pmGood.paved)
    ∧ getPath docGood ["metadata", "name"] = some (Value.str "ex-1") :=
  c9_theorem envOk.resolve pmGood ctxW docGood "ex-1" pmGood.paved rfl rfl

/-! ### Claims about store-phase failure isolation -/

/-- C3 counterexample: in a run whose first resource fails (its document has
no `metadata.labels`), the store phase writes nothing at all — in particular
the second resource, which succeeds in isolation, is never generated, so a
failure does not leave the other resources' generation unaffected. -/
theorem c3_counterexample :
    storeOne envOk egC3 "b.*" pmGood = Except.ok [docGood]
    ∧ storeExamples envOk egC3
      = ([], some ("cannot store example manifest for resource: a.*: "
          ++ "cannot get \"metadata.labels\" from paved")) :=
  ⟨rfl, rfl⟩

/-- C3 amended: a failing resource aborts the whole store run at that
resource: the run returns that resource's wrapped error (carrying its
identifier for manifest, dependency and file-write failures, and the directory
path for mkdir failures), the resources before it in iteration order have
already been fully written, and the resources after it are not generated. -/
theorem c3_amended (env : Env) (eg : Generator)
    (pre : List (String × PavedWithManifest)) (rn : String) (pm : PavedWithManifest)
    (post : List (String × PavedWithManifest)) (e : String)
    (hok : ∀ p ∈ pre, ∃ ds, storeOne env eg p.1 p.2 = Except.ok ds)
    (herr : storeOne env eg rn pm = Except.error e) :
    storeExamplesGo env eg (pre ++ (rn, pm) :: post)
      = (pre.map (fun p => (p.2.manifestPath, storeDocsD env eg p)), some e) := by
  induction pre with
  | nil =>
    rw [List.nil_append, storeExamplesGo, herr]
    rfl
  | cons p ps ih =>
    obtain ⟨a, b⟩ := p
    obtain ⟨ds, hds⟩ := hok (a, b) (List.Mem.head _)
    rw [List.cons_append, storeExamplesGo, hds,
      ih (fun q hq => hok q (List.Mem.tail _ hq)), List.map_cons]
    have hdocs : storeDocsD env eg (a, b) = ds := by
      rw [storeDocsD, hds]
    rw [hdocs]

/-- C3 amended witness: a three-resource run — one succeeding, one failing at
the `WriteFile` step, one succeeding — writes exactly the first resource's
file and stops with the failing resource's wrapped write error, which carries
the manifest path and the resource identifier. -/
theorem c3_witness :
    storeExamples envW3 egW3
      = ([("dir/good.yaml", [docGood])],
         some ("cannot write example manifest file dir/bad.yaml "
          ++ "for resource a.*: disk full")) := by
  have h := c3_amended envW3 egW3 [("b.*", pmGood)] "a.*" pmBadW [("c.*", pmGood)]
    ("cannot write example manifest file dir/bad.yaml "
      ++ "for resource a.*: disk full")
    (by
      intro p hp
      rcases List.mem_singleton.mp hp with he
      subst he
      exact ⟨[docGood], rfl⟩)
    rfl
  exact h

/-! ### Claims about the store-phase dependency ordering -/

/-- C8: the store phase processes dependency identifiers in lexicographically
sorted key order (`depKeys`, fed to the dependency loop of the store phase),
and the order is the same for any two enumerations of the same dependency
map. -/
theorem c8_theorem (d1 d2 : List (String × String)) (hp : d1.Perm d2) :
    depKeys d1 = depKeys d2 ∧ (depKeys d1).Sorted (· ≤ ·) := by
  have hs1 : (depKeys d1).Sorted (· ≤ ·) := List.sorted_insertionSort _ _
  have hs2 : (depKeys d2).Sorted (· ≤ ·) := List.sorted_insertionSort _ _
  have hperm : (depKeys d1).Perm (depKeys d2) :=
    ((List.perm_insertionSort _ _).trans (hp.map Prod.fst)).trans
      (List.perm_insertionSort _ _).symm
  exact ⟨List.eq_of_perm_of_sorted hperm hs1 hs2, hs1⟩

/-- C8 witness: the theorem applied to the map `{"b.x": ..., "a.y": ...}` and
a reordered enumeration of it; `a.y` is processed before `b.x`. -/
theorem c8_witness :
    depKeys [("b.x", "1"), ("a.y", "2")] = depKeys [("a.y", "2"), ("b.x", "1")]
    ∧ (depKeys [("b.x", "1"), ("a.y", "2")]).Sorted (· ≤ ·)
    ∧ depKeys [("b.x", "1"), ("a.y", "2")] = ["a.y", "b.x"] :=
  ⟨(c8_theorem [("b.x", "1"), ("a.y", "2")] [("a.y", "2"), ("b.x", "1")]
      (List.Perm.swap _ _ _)).1,
   (c8_theorem [("b.x", "1"), ("a.y", "2")] [("a.y", "2"), ("b.x", "1")]
      (List.Perm.swap _ _ _)).2,
   by
    have hle : ("a.y" : String) ≤ "b.x" := String.le_iff_toList_le.mpr (by decide)
    have hnle : ¬ (("b.x" : String) ≤ "a.y") :=
      fun hh => absurd (String.le_iff_toList_le.mp hh) (by decide)
    simp only [depKeys, sortStrings, List.map, List.insertionSort, List.orderedInsert]
    rw [if_neg hnle]⟩

/-- C10: a dependency identifier whose wildcard resource name is not in the
generator's resource table is silently skipped by the dependency loop — no
document is produced for it, no error is returned, and the remaining sorted
identifiers are processed as if it were absent. -/
theorem c10_theorem (env : Env) (eg : Generator) (re : ResourceExample)
    (localCtx : ResolutionContext) (rn dn : String) (rest : List String)
    (h : assocGet eg.resources (getResourceName (refResource dn) (refExampleName dn) true) = none) :
    storeDeps env eg re localCtx rn (dn :: rest) = storeDeps env eg re localCtx rn rest := by
  rw [storeDeps, h]

/-- C10 witness: the theorem applied to an empty resource table and the
dependency identifier `dep.ex`. -/
theorem c10_witness :
    assocGet egEmpty.resources
        (getResourceName (refResource "dep.ex") (refExampleName "dep.ex") true) = none
    ∧ storeDeps envOk egEmpty reW ctxW "r.*" ["dep.ex"] = Except.ok [] := by
  refine ⟨rfl, ?_⟩
  rw [c10_theorem envOk egEmpty reW ctxW "r.*" "dep.ex" [] rfl]
  rfl

end Upjet
